import Mathlib

/-!
Shallow embedding of the connection-routing layer of
`vendor/github.com/lucas-clemente/quic-go/packet_handler_map.go`:
the `packetHandlerMap` registry (connection-ID handlers plus stateless
reset-token index), its lifecycle operations (`Add`, `AddWithResetToken`,
`Remove`, `Retire`, `SetServer`, `CloseServer`, `close`), the receive loop
(`listen`) and the dispatcher (`handlePacket`).

Go maps are embedded as association lists whose update operations mirror
Go-map overwrite/delete semantics; a goroutine's side effects (handler
`destroy`/`Close` calls, scheduled retirements) are returned as explicit
effect lists; the external wire-parsing collaborators
(`wire.ParseInvariantHeader` and `InvariantHeader.Parse`), which are not part
of the sources under study, are parameters of the dispatcher.
-/

namespace Quic

/-- Connection IDs: opaque byte strings (`protocol.ConnectionID`, used as a
map key via `string(id)`). -/
abbrev ConnID := List Nat

/-- Stateless reset tokens: the Go code uses `[16]byte`; we use byte lists
(the dispatcher always extracts exactly 16 trailing bytes). -/
abbrev Token := List Nat

/-- `protocol.Perspective`. -/
inductive Perspective where
  | client
  | server
deriving DecidableEq, Repr

/-- `Perspective.Opposite` from the protocol package (not under the sources
studied; its behavior is forced: the opposite role). -/
def Perspective.opposite : Perspective → Perspective
  | .client => .server
  | .server => .client

/-- A `packetHandler` interface value: an identity plus the data the routing
layer queries (`GetPerspective`, `GetVersion`). Delivery of packets and
destruction are recorded as effects, not methods. -/
structure PacketHandler where
  hid : Nat
  perspective : Perspective
  version : Nat
deriving DecidableEq, Repr

/-- An `unknownPacketHandler` (the server slot). -/
structure ServerHandler where
  sid : Nat
deriving DecidableEq, Repr

/-- `packetHandlerEntry`: handler plus optional stateless reset token. -/
structure PacketHandlerEntry where
  handler : PacketHandler
  resetToken : Option Token
deriving DecidableEq, Repr

/-- Association-list map lookup, mirroring Go map indexing `m[k]`. -/
def mapLookup {α β : Type} [DecidableEq α] (k : α) : List (α × β) → Option β
  | [] => none
  | (k', v) :: rest => if k' = k then some v else mapLookup k rest

/-- Association-list map deletion, mirroring Go `delete(m, k)`. -/
def mapDelete {α β : Type} [DecidableEq α] (k : α) (m : List (α × β)) :
    List (α × β) :=
  m.filter (fun p => ¬ p.1 = k)

/-- Association-list map insertion, mirroring Go `m[k] = v` (overwrite). -/
def mapInsert {α β : Type} [DecidableEq α] (k : α) (v : β) (m : List (α × β)) :
    List (α × β) :=
  (k, v) :: mapDelete k m

/-- Number of occurrences of `a` in `l` (used to state "exactly once"
properties without relying on a particular `BEq` instance). -/
def occurrences {α : Type} [DecidableEq α] (a : α) (l : List α) : Nat :=
  (l.filter (fun x => x = a)).length

/-- Errors and destroy-reasons flowing through the routing layer.
`external` stands for error values handed in from outside (socket read
errors, close reasons); the other constructors are the `fmt.Errorf` /
`errors.New` values `handlePacket` builds itself. -/
inductive QErr where
  | external (n : Nat)
  | invariantHeaderParse
  | statelessResetReceived
  | unknownConnShort
  | unknownConnLong
  | headerParse
  | lengthShorterThanPacketNumber
  | lengthMismatch
deriving DecidableEq, Repr

/-- The `packetHandlerMap` registry state. `deleteRetiredSessionsAfter` is
the grace delay used by `Retire` (a duration, embedded as a `Nat`). -/
structure PacketHandlerMap where
  connIDLen : Nat
  handlers : List (ConnID × PacketHandlerEntry)
  resetTokens : List (Token × PacketHandler)
  server : Option ServerHandler
  closed : Bool
  deleteRetiredSessionsAfter : Nat
deriving DecidableEq, Repr

/-- Modelled from the spec: `protocol.RetiredConnectionIDDeleteTimeout`, the
fixed retired-connection-ID grace delay, is a protocol-wide constant whose
defining file is not among the sources under study; only its fixedness
matters to the routing layer, so an arbitrary positive value stands in. -/
def RetiredConnectionIDDeleteTimeout : Nat := 5

/-- Modelled from the spec: `protocol.MinStatelessResetSize`, the minimum
stateless-reset datagram size, is a protocol-wide constant whose defining
file is not among the sources under study; only the comparison of a
datagram's length against it matters to routing (and that it is at least the
16 token bytes). A representative value stands in. -/
def MinStatelessResetSize : Nat := 42

/-- `newPacketHandlerMap` (the fields the routing logic reads; the socket and
logger are external). -/
def newPacketHandlerMap (connIDLen : Nat) : PacketHandlerMap :=
  { connIDLen := connIDLen
    handlers := []
    resetTokens := []
    server := none
    closed := false
    deleteRetiredSessionsAfter := RetiredConnectionIDDeleteTimeout }

/-- `Add`: insert `id → {handler, no token}` into the primary map. -/
def Add (h : PacketHandlerMap) (id : ConnID) (handler : PacketHandler) :
    PacketHandlerMap :=
  { h with handlers := mapInsert id ⟨handler, none⟩ h.handlers }

/-- `AddWithResetToken`: insert into the primary map and the token index in
one critical section. -/
def AddWithResetToken (h : PacketHandlerMap) (id : ConnID)
    (handler : PacketHandler) (token : Token) : PacketHandlerMap :=
  { h with
    handlers := mapInsert id ⟨handler, some token⟩ h.handlers
    resetTokens := mapInsert token handler h.resetTokens }

/-- `removeByConnectionIDAsString`: delete the entry and, when it carries a
token, that token from the index, in the same critical section; no-op when
the id is absent. -/
def removeByConnectionIDAsString (h : PacketHandlerMap) (id : ConnID) :
    PacketHandlerMap :=
  match mapLookup id h.handlers with
  | none => h
  | some entry =>
    { h with
      handlers := mapDelete id h.handlers
      resetTokens :=
        match entry.resetToken with
        | some t => mapDelete t h.resetTokens
        | none => h.resetTokens }

/-- `Remove`. -/
def Remove (h : PacketHandlerMap) (id : ConnID) : PacketHandlerMap :=
  removeByConnectionIDAsString h id

/-- Result of `Retire`: the (unchanged) state plus the removals scheduled on
timers, each with its delay. -/
structure RetireResult where
  state : PacketHandlerMap
  scheduledRemovals : List (ConnID × Nat)
deriving DecidableEq, Repr

/-- `retireByConnectionIDAsString`: `time.AfterFunc` schedules one removal of
`id` after `deleteRetiredSessionsAfter`; nothing is removed now. -/
def retireByConnectionIDAsString (h : PacketHandlerMap) (id : ConnID) :
    RetireResult :=
  ⟨h, [(id, h.deleteRetiredSessionsAfter)]⟩

/-- `Retire`. -/
def Retire (h : PacketHandlerMap) (id : ConnID) : RetireResult :=
  retireByConnectionIDAsString h id

/-- `SetServer`. -/
def SetServer (h : PacketHandlerMap) (s : ServerHandler) : PacketHandlerMap :=
  { h with server := some s }

/-- Result of `CloseServer`: the new state plus, per server-perspective
handler, the `(id, handler)` pairs that received `Close()` followed by
`retireByConnectionIDAsString id` in a per-handler goroutine. -/
structure CloseServerResult where
  state : PacketHandlerMap
  closedAndRetired : List (ConnID × PacketHandler)
deriving DecidableEq, Repr

/-- `CloseServer`: clear the server slot; `Close()` then retire every
handler whose perspective is server; leave other entries alone. -/
def CloseServer (h : PacketHandlerMap) : CloseServerResult :=
  { state := { h with server := none }
    closedAndRetired :=
      (h.handlers.filter
        (fun p => p.2.handler.perspective = Perspective.server)).map
        (fun p => (p.1, p.2.handler)) }

/-- Result of `close`: the new state, the `destroy(e)` calls issued (one per
map entry, with the error), and the error the server's `closeWithError`
received, if a server was set. -/
structure CloseResult where
  state : PacketHandlerMap
  destroyed : List (PacketHandler × QErr)
  serverClosedWith : Option QErr
deriving DecidableEq, Repr

/-- `close(e)`: if already closed return immediately (`nil`, no effects);
otherwise mark closed, destroy every handler in the map with `e`, and close
the server with `e` if one is set. The Go function always returns `nil`. -/
def close (h : PacketHandlerMap) (e : QErr) : CloseResult :=
  if h.closed then ⟨h, [], none⟩
  else
    { state := { h with closed := true }
      destroyed := h.handlers.map (fun p => (p.2.handler, e))
      serverClosedWith := h.server.map (fun _ => e) }

/-- The invariant header fields `handlePacket` reads
(`wire.ParseInvariantHeader`'s result). -/
structure InvariantHeader where
  isLongHeader : Bool
  destConnectionID : ConnID
  version : Nat
deriving DecidableEq, Repr

/-- The second-stage header fields `handlePacket` reads (`iHdr.Parse`'s
result): long/short form, the declared `Length`, and `PacketNumberLen`. -/
structure FullHeader where
  isLongHeader : Bool
  length : Nat
  packetNumberLen : Nat
deriving DecidableEq, Repr

/-- `wire.ParseInvariantHeader(r, connIDLen)` as an external collaborator:
from the datagram bytes and the configured connection-ID length, either a
parse failure or the invariant header plus the bytes the reader still
holds. -/
abbrev ParseInvariantFn :=
  List Nat → Nat → Option (InvariantHeader × List Nat)

/-- `iHdr.Parse(r, sentBy, version)` as an external collaborator: from the
invariant header, the reader's remaining bytes, the inferred sender
perspective and the version, either a parse failure or the full header plus
the bytes the reader still holds (which become `packetData`). -/
abbrev ParseFullFn :=
  InvariantHeader → List Nat → Perspective → Nat → Option (FullHeader × List Nat)

/-- Who a packet was delivered to. -/
inductive DeliveryTarget where
  | session (h : PacketHandler)
  | server (s : ServerHandler)
deriving DecidableEq, Repr

/-- Outcome of `handlePacket` on one datagram: delivery of a payload to a
handler or to the server (returns `nil`), destruction of a session by a
recognized stateless reset (returns `nil`), or a returned error with nothing
delivered. -/
inductive HandleResult where
  | delivered (target : DeliveryTarget) (payload : List Nat)
  | reset (destroyed : PacketHandler) (reason : QErr)
  | dropped (err : QErr)
deriving DecidableEq, Repr

/-- Whether the outcome is a returned (non-`nil`) error. -/
def HandleResult.returnsError : HandleResult → Bool
  | .dropped _ => true
  | _ => false

/-- The last `n` bytes of a datagram (`data[len(data)-n:]`). -/
def lastN {α : Type} (n : Nat) (l : List α) : List α :=
  l.drop (l.length - n)

/-- The tail of `handlePacket` after the registry lookup released the read
lock: second-stage parse, then for long headers the two declared-length
checks and the truncation `packetData[:hdr.Length-int(hdr.PacketNumberLen)]`,
then delivery of the received packet. -/
def dispatchParsed (target : DeliveryTarget) (sentBy : Perspective)
    (version : Nat) (iHdr : InvariantHeader) (rest : List Nat)
    (parseFull : ParseFullFn) : HandleResult :=
  match parseFull iHdr rest sentBy version with
  | none => .dropped .headerParse
  | some (hdr, packetData) =>
    if hdr.isLongHeader then
      if hdr.length < hdr.packetNumberLen then
        .dropped .lengthShorterThanPacketNumber
      else if packetData.length + hdr.packetNumberLen < hdr.length then
        .dropped .lengthMismatch
      else
        .delivered target (packetData.take (hdr.length - hdr.packetNumberLen))
    else .delivered target packetData

/-- `handlePacket(addr, data)`: parse the invariant header; look the
destination up in the registry; on a miss, for short headers try the
stateless-reset token (trailing 16 bytes) when the datagram is large enough,
for long headers fall back to the server; then parse the full header with
the perspective/version the routing decision fixed and run the length
checks. -/
def handlePacket (h : PacketHandlerMap) (parseInvariant : ParseInvariantFn)
    (parseFull : ParseFullFn) (data : List Nat) : HandleResult :=
  match parseInvariant data h.connIDLen with
  | none => .dropped .invariantHeaderParse
  | some (iHdr, rest) =>
    match mapLookup iHdr.destConnectionID h.handlers with
    | some entry =>
      dispatchParsed (.session entry.handler)
        entry.handler.perspective.opposite entry.handler.version
        iHdr rest parseFull
    | none =>
      if !iHdr.isLongHeader then
        if MinStatelessResetSize ≤ data.length then
          match mapLookup (lastN 16 data) h.resetTokens with
          | some sess => .reset sess .statelessResetReceived
          | none => .dropped .unknownConnShort
        else .dropped .unknownConnShort
      else
        match h.server with
        | none => .dropped .unknownConnLong
        | some srv =>
          dispatchParsed (.server srv) .client iHdr.version iHdr rest parseFull

/-- One socket read in the receive loop: either a datagram (with its bytes
already truncated to the read length) or a read error. -/
inductive ReadEvent where
  | ok (data : List Nat)
  | fail (e : QErr)
deriving DecidableEq, Repr

/-- Trace of a run of `listen` over a finite prefix of socket reads: the
final registry state, the per-datagram `handlePacket` outcomes in order, and
the error `close` was called with when a read failed (`none` while the loop
is still running). -/
structure ListenTrace where
  finalState : PacketHandlerMap
  dispatched : List HandleResult
  closedWith : Option QErr
deriving DecidableEq, Repr

/-- `listen`: read; on a read error call `close(err)` and return; otherwise
hand the datagram to `handlePacket`, log any error it returns, and loop.
`handlePacket` never mutates the registry maps, so the state is threaded
unchanged across successful reads. -/
def listen (h : PacketHandlerMap) (parseInvariant : ParseInvariantFn)
    (parseFull : ParseFullFn) : List ReadEvent → ListenTrace
  | [] => ⟨h, [], none⟩
  | .fail e :: _ => ⟨(close h e).state, [], some e⟩
  | .ok data :: rest =>
    let r := handlePacket h parseInvariant parseFull data
    let t := listen h parseInvariant parseFull rest
    ⟨t.finalState, r :: t.dispatched, t.closedWith⟩

/-- A single registry mutation, as the public operations expose them
(`retireFired` is the removal a `Retire` timer runs when it fires). -/
inductive RegOp where
  | add (id : ConnID) (hd : PacketHandler)
  | addTok (id : ConnID) (hd : PacketHandler) (tok : Token)
  | remove (id : ConnID)
  | retireFired (id : ConnID)
deriving DecidableEq, Repr

/-- Apply one mutation to the registry. -/
def applyOp (s : PacketHandlerMap) : RegOp → PacketHandlerMap
  | .add id hd => Add s id hd
  | .addTok id hd tok => AddWithResetToken s id hd tok
  | .remove id => Remove s id
  | .retireFired id => removeByConnectionIDAsString s id

/-- Run a sequence of mutations. -/
def runOps (s : PacketHandlerMap) (ops : List RegOp) : PacketHandlerMap :=
  ops.foldl applyOp s

/-- Registry states reachable from a fresh map by mutation sequences in
which an insertion never overwrites a currently registered connection ID and
a token insertion never reuses a currently indexed token. -/
inductive FreshReach : PacketHandlerMap → Prop where
  | init (connIDLen : Nat) : FreshReach (newPacketHandlerMap connIDLen)
  | add (s : PacketHandlerMap) (id : ConnID) (hd : PacketHandler) :
      FreshReach s → mapLookup id s.handlers = none → FreshReach (Add s id hd)
  | addTok (s : PacketHandlerMap) (id : ConnID) (hd : PacketHandler)
      (tok : Token) : FreshReach s → mapLookup id s.handlers = none →
      mapLookup tok s.resetTokens = none →
      FreshReach (AddWithResetToken s id hd tok)
  | remove (s : PacketHandlerMap) (id : ConnID) :
      FreshReach s → FreshReach (Remove s id)
  | retireFired (s : PacketHandlerMap) (id : ConnID) :
      FreshReach s → FreshReach (removeByConnectionIDAsString s id)

/-- Registry well-formedness: both maps have pairwise-distinct keys, every
entry's token is indexed under that entry's handler, every indexed token is
backed by a matching entry, and no two entries share a token. -/
structure RegInv (s : PacketHandlerMap) : Prop where
  hNodup : (s.handlers.map Prod.fst).Nodup
  tNodup : (s.resetTokens.map Prod.fst).Nodup
  entriesIndexed : ∀ id e tok, (id, e) ∈ s.handlers →
      e.resetToken = some tok → mapLookup tok s.resetTokens = some e.handler
  tokensBacked : ∀ tok hd, (tok, hd) ∈ s.resetTokens →
      ∃ id e, (id, e) ∈ s.handlers ∧ e.resetToken = some tok ∧ e.handler = hd
  tokenUnique : ∀ tok id1 e1 id2 e2, (id1, e1) ∈ s.handlers →
      (id2, e2) ∈ s.handlers → e1.resetToken = some tok →
      e2.resetToken = some tok → id1 = id2 ∧ e1 = e2

/-- The consistency property between the token index and the primary map
that the spec asserts: every indexed token is owned by exactly one matching
entry. -/
def uniqueTokenOwner (s : PacketHandlerMap) : Prop :=
  ∀ tok hd, (tok, hd) ∈ s.resetTokens →
    ∃ id e, ((id, e) ∈ s.handlers ∧ e.resetToken = some tok ∧ e.handler = hd) ∧
      ∀ id2 e2, (id2, e2) ∈ s.handlers → e2.resetToken = some tok →
        id2 = id ∧ e2 = e

/-- Sample client-perspective handler. -/
def hClient1 : PacketHandler := ⟨1, Perspective.client, 43⟩

/-- A second sample client-perspective handler. -/
def hClient2 : PacketHandler := ⟨2, Perspective.client, 43⟩

/-- Sample server-perspective handler. -/
def hServer1 : PacketHandler := ⟨3, Perspective.server, 43⟩

/-- Sample 16-byte stateless reset token. -/
def tok16 : Token := List.replicate 16 7

/-- An invariant-header parse oracle returning a fixed long header. -/
def piLong (dest : ConnID) (rest : List Nat) : ParseInvariantFn :=
  fun _ _ => some (⟨true, dest, 43⟩, rest)

/-- An invariant-header parse oracle returning a fixed short header. -/
def piShort (dest : ConnID) (rest : List Nat) : ParseInvariantFn :=
  fun _ _ => some (⟨false, dest, 43⟩, rest)

/-- A second-stage parse oracle returning a fixed full header and consuming
no further bytes. -/
def pfFix (hdr : FullHeader) : ParseFullFn :=
  fun _ r _ _ => some (hdr, r)

/-- Registry state reached (as the claim about the token-index invariant
quantifies) by `AddWithResetToken` followed by an overwriting `Add` of the
same connection ID. -/
def overwriteState : PacketHandlerMap :=
  runOps (newPacketHandlerMap 4)
    [RegOp.addTok [1] hClient1 tok16, RegOp.add [1] hClient2]

/-- Registry state holding one client handler under connection ID `[1]`. -/
def oneClientState : PacketHandlerMap :=
  Add (newPacketHandlerMap 4) [1] hClient1

/-- Registry state holding one client handler with a reset token. -/
def oneTokenState : PacketHandlerMap :=
  AddWithResetToken (newPacketHandlerMap 4) [1] hClient1 tok16

/-- The closed empty registry. -/
def closedEmpty : PacketHandlerMap :=
  (close (newPacketHandlerMap 4) (QErr.external 0)).state

/-- Registry with one server-perspective and one client-perspective handler
and a server slot set. -/
def mixedState : PacketHandlerMap :=
  SetServer (Add (Add (newPacketHandlerMap 4) [1] hServer1) [2] hClient1)
    ⟨9⟩

section MapLemmas

variable {α β : Type} [DecidableEq α]

theorem mapLookup_nil {k : α} : mapLookup k ([] : List (α × β)) = none := rfl

theorem mapLookup_cons {k k₀ : α} {v₀ : β} {rest : List (α × β)} :
    mapLookup k ((k₀, v₀) :: rest) =
      if k₀ = k then some v₀ else mapLookup k rest := rfl

theorem mapDelete_nil {k : α} : mapDelete k ([] : List (α × β)) = [] := rfl

theorem mapDelete_cons {k k₀ : α} {v₀ : β} {rest : List (α × β)} :
    mapDelete k ((k₀, v₀) :: rest) =
      if k₀ = k then mapDelete k rest else (k₀, v₀) :: mapDelete k rest := by
  by_cases h : k₀ = k <;> simp [mapDelete, List.filter_cons, h]

theorem mapLookup_eq_none {k : α} {m : List (α × β)} :
    mapLookup k m = none ↔ ∀ v, (k, v) ∉ m := by
  induction m with
  | nil => simp [mapLookup_nil]
  | cons p rest ih =>
    obtain ⟨k', v'⟩ := p
    rw [mapLookup_cons]
    by_cases hk : k' = k
    · subst hk
      constructor
      · intro h
        simp at h
      · intro h
        exact absurd (List.mem_cons_self _ _) (h v')
    · rw [if_neg hk]
      constructor
      · intro h v hv
        rcases List.mem_cons.mp hv with hv | hv
        · exact hk (congrArg Prod.fst hv).symm
        · exact (ih.mp h) v hv
      · intro h
        exact ih.mpr (fun v hv => h v (List.mem_cons_of_mem _ hv))

theorem mem_of_mapLookup_eq_some {k : α} {v : β} {m : List (α × β)}
    (h : mapLookup k m = some v) : (k, v) ∈ m := by
  induction m with
  | nil => simp [mapLookup_nil] at h
  | cons p rest ih =>
    obtain ⟨k', v'⟩ := p
    rw [mapLookup_cons] at h
    by_cases hk : k' = k
    · subst hk
      rw [if_pos rfl] at h
      rw [Option.some_inj] at h
      simp [h]
    · rw [if_neg hk] at h
      exact List.mem_cons_of_mem _ (ih h)

theorem mapLookup_eq_some_of_mem {k : α} {v : β} {m : List (α × β)}
    (hnd : (m.map Prod.fst).Nodup) (hmem : (k, v) ∈ m) :
    mapLookup k m = some v := by
  induction m with
  | nil => simp at hmem
  | cons p rest ih =>
    obtain ⟨k', v'⟩ := p
    simp only [List.map_cons, List.nodup_cons] at hnd
    rw [mapLookup_cons]
    rcases List.mem_cons.mp hmem with hv | hv
    · have hk : k' = k := (congrArg Prod.fst hv).symm
      have hvv : v' = v := (congrArg Prod.snd hv).symm
      rw [if_pos hk, hvv]
    · have hk : k' ≠ k := by
        intro hkk
        subst hkk
        exact hnd.1 (List.mem_map.mpr ⟨(k', v), hv, rfl⟩)
      rw [if_neg hk]
      exact ih hnd.2 hv

theorem mem_mapDelete {k : α} {p : α × β} {m : List (α × β)} :
    p ∈ mapDelete k m ↔ p ∈ m ∧ p.1 ≠ k := by
  simp [mapDelete, List.mem_filter]

theorem keys_mapDelete_sublist (k : α) (m : List (α × β)) :
    ((mapDelete k m).map Prod.fst).Sublist (m.map Prod.fst) :=
  (List.filter_sublist m).map Prod.fst

theorem nodup_keys_mapDelete {k : α} {m : List (α × β)}
    (h : (m.map Prod.fst).Nodup) : ((mapDelete k m).map Prod.fst).Nodup :=
  h.sublist (keys_mapDelete_sublist k m)

theorem mem_mapInsert {k : α} {v : β} {p : α × β} {m : List (α × β)} :
    p ∈ mapInsert k v m ↔ p = (k, v) ∨ (p ∈ m ∧ p.1 ≠ k) := by
  simp [mapInsert, mem_mapDelete]

theorem nodup_keys_mapInsert {k : α} {v : β} {m : List (α × β)}
    (h : (m.map Prod.fst).Nodup) :
    ((mapInsert k v m).map Prod.fst).Nodup := by
  simp only [mapInsert, List.map_cons, List.nodup_cons]
  refine ⟨?_, nodup_keys_mapDelete h⟩
  intro hk
  rcases List.mem_map.mp hk with ⟨p, hp, hpk⟩
  exact (mem_mapDelete.mp hp).2 hpk

theorem mapLookup_mapDelete_ne {k k' : α} {m : List (α × β)} (h : k ≠ k') :
    mapLookup k (mapDelete k' m) = mapLookup k m := by
  induction m with
  | nil => rfl
  | cons p rest ih =>
    obtain ⟨k₀, v₀⟩ := p
    rw [mapDelete_cons]
    by_cases h0 : k₀ = k'
    · subst h0
      have hk : ¬ k₀ = k := fun hc => h (hc.symm.trans rfl)
      rw [if_pos rfl, ih, mapLookup_cons, if_neg hk]
    · rw [if_neg h0, mapLookup_cons, mapLookup_cons]
      by_cases h1 : k₀ = k
      · rw [if_pos h1, if_pos h1]
      · rw [if_neg h1, if_neg h1, ih]

theorem mapLookup_mapDelete_self {k : α} {m : List (α × β)} :
    mapLookup k (mapDelete k m) = (none : Option β) := by
  rw [mapLookup_eq_none]
  intro v hv
  exact (mem_mapDelete.mp hv).2 rfl

theorem mapLookup_mapInsert_self {k : α} {v : β} {m : List (α × β)} :
    mapLookup k (mapInsert k v m) = some v := by
  rw [mapInsert, mapLookup_cons, if_pos rfl]

theorem mapLookup_mapInsert_ne {k k' : α} {v : β} {m : List (α × β)}
    (h : k' ≠ k) : mapLookup k' (mapInsert k v m) = mapLookup k' m := by
  have hne : ¬ k = k' := fun hc => h (hc.symm.trans rfl)
  rw [mapInsert, mapLookup_cons, if_neg hne]
  exact mapLookup_mapDelete_ne h

theorem occurrences_nil {a : α} : occurrences a ([] : List α) = 0 := rfl

theorem occurrences_cons {a x : α} {l : List α} :
    occurrences a (x :: l) =
      (if x = a then 1 else 0) + occurrences a l := by
  by_cases h : x = a <;>
    simp [occurrences, List.filter_cons, h, Nat.add_comm]

theorem occurrences_map_inj {γ : Type} [DecidableEq γ] {f : α → γ}
    (hf : ∀ a b, f a = f b → a = b) (a : α) (l : List α) :
    occurrences (f a) (l.map f) = occurrences a l := by
  induction l with
  | nil => rfl
  | cons x xs ih =>
    rw [List.map_cons, occurrences_cons, occurrences_cons, ih]
    by_cases h : x = a
    · rw [if_pos h, if_pos (by rw [h])]
    · rw [if_neg h, if_neg (fun hc => h (hf _ _ hc))]

theorem mapDelete_of_lookup_none {k : α} {m : List (α × β)}
    (h : mapLookup k m = none) : mapDelete k m = m := by
  induction m with
  | nil => rfl
  | cons p rest ih =>
    obtain ⟨k', v'⟩ := p
    rw [mapLookup_cons] at h
    by_cases hk : k' = k
    · rw [if_pos hk] at h
      exact absurd h (by simp)
    · rw [if_neg hk] at h
      rw [mapDelete_cons, if_neg hk, ih h]

end MapLemmas

theorem regInv_init (connIDLen : Nat) : RegInv (newPacketHandlerMap connIDLen) := by
  refine ⟨?_, ?_, ?_, ?_, ?_⟩ <;> simp [newPacketHandlerMap]

theorem regInv_add {s : PacketHandlerMap} (inv : RegInv s) (id : ConnID)
    (hd : PacketHandler) (hfresh : mapLookup id s.handlers = none) :
    RegInv (Add s id hd) := by
  have hnotin : ∀ v, (id, v) ∉ s.handlers := mapLookup_eq_none.mp hfresh
  refine ⟨?_, ?_, ?_, ?_, ?_⟩
  · exact nodup_keys_mapInsert inv.hNodup
  · exact inv.tNodup
  · intro id' e' tok hmem htok
    rcases mem_mapInsert.mp hmem with hnew | ⟨hold, _⟩
    · have : e' = ⟨hd, none⟩ := congrArg Prod.snd hnew
      rw [this] at htok
      simp at htok
    · exact inv.entriesIndexed id' e' tok hold htok
  · intro tok h' hmem
    obtain ⟨id0, e0, hm0, ht0, hh0⟩ := inv.tokensBacked tok h' hmem
    have hne : (id0, e0).1 ≠ id := by
      intro hc
      exact hnotin e0 (hc ▸ hm0)
    exact ⟨id0, e0, mem_mapInsert.mpr (Or.inr ⟨hm0, hne⟩), ht0, hh0⟩
  · intro tok id1 e1 id2 e2 hm1 hm2 ht1 ht2
    rcases mem_mapInsert.mp hm1 with hnew | ⟨hold1, _⟩
    · have : e1 = ⟨hd, none⟩ := congrArg Prod.snd hnew
      rw [this] at ht1
      simp at ht1
    · rcases mem_mapInsert.mp hm2 with hnew | ⟨hold2, _⟩
      · have : e2 = ⟨hd, none⟩ := congrArg Prod.snd hnew
        rw [this] at ht2
        simp at ht2
      · exact inv.tokenUnique tok id1 e1 id2 e2 hold1 hold2 ht1 ht2

theorem regInv_addTok {s : PacketHandlerMap} (inv : RegInv s) (id : ConnID)
    (hd : PacketHandler) (tok : Token)
    (hfresh : mapLookup id s.handlers = none)
    (htfresh : mapLookup tok s.resetTokens = none) :
    RegInv (AddWithResetToken s id hd tok) := by
  have hnotin : ∀ v, (id, v) ∉ s.handlers := mapLookup_eq_none.mp hfresh
  have hnoEntryTok : ∀ id' e', (id', e') ∈ s.handlers →
      e'.resetToken ≠ some tok := by
    intro id' e' hm hc
    have := inv.entriesIndexed id' e' tok hm hc
    rw [htfresh] at this
    exact Option.noConfusion this
  refine ⟨?_, ?_, ?_, ?_, ?_⟩
  · exact nodup_keys_mapInsert inv.hNodup
  · exact nodup_keys_mapInsert inv.tNodup
  · intro id' e' t hmem htok
    rcases mem_mapInsert.mp hmem with hnew | ⟨hold, _⟩
    · have he : e' = ⟨hd, some tok⟩ := congrArg Prod.snd hnew
      rw [he] at htok ⊢
      have ht : t = tok := by
        simpa using htok.symm
      rw [ht]
      exact mapLookup_mapInsert_self
    · have hne : t ≠ tok := by
        intro hc
        exact hnoEntryTok id' e' hold (hc ▸ htok)
      show mapLookup t (mapInsert tok hd s.resetTokens) = some e'.handler
      rw [mapLookup_mapInsert_ne hne]
      exact inv.entriesIndexed id' e' t hold htok
  · intro t h' hmem
    rcases mem_mapInsert.mp hmem with hnew | ⟨hold, hne⟩
    · have ht : t = tok := congrArg Prod.fst hnew
      have hh : h' = hd := congrArg Prod.snd hnew
      refine ⟨id, ⟨hd, some tok⟩, mem_mapInsert.mpr (Or.inl rfl), ?_, hh.symm ▸ rfl⟩
      rw [ht]
    · obtain ⟨id0, e0, hm0, ht0, hh0⟩ := inv.tokensBacked t h' hold
      have hne0 : (id0, e0).1 ≠ id := by
        intro hc
        exact hnotin e0 (hc ▸ hm0)
      exact ⟨id0, e0, mem_mapInsert.mpr (Or.inr ⟨hm0, hne0⟩), ht0, hh0⟩
  · intro t id1 e1 id2 e2 hm1 hm2 ht1 ht2
    rcases mem_mapInsert.mp hm1 with hnew1 | ⟨hold1, _⟩
    · rcases mem_mapInsert.mp hm2 with hnew2 | ⟨hold2, _⟩
      · exact ⟨(congrArg Prod.fst hnew1).trans (congrArg Prod.fst hnew2).symm,
          (congrArg Prod.snd hnew1).trans (congrArg Prod.snd hnew2).symm⟩
      · have he1 : e1 = ⟨hd, some tok⟩ := congrArg Prod.snd hnew1
        have ht : t = tok := by
          rw [he1] at ht1
          simpa using ht1.symm
        exact absurd (ht ▸ ht2) (hnoEntryTok id2 e2 hold2)
    · rcases mem_mapInsert.mp hm2 with hnew2 | ⟨hold2, _⟩
      · have he2 : e2 = ⟨hd, some tok⟩ := congrArg Prod.snd hnew2
        have ht : t = tok := by
          rw [he2] at ht2
          simpa using ht2.symm
        exact absurd (ht ▸ ht1) (hnoEntryTok id1 e1 hold1)
      · exact inv.tokenUnique t id1 e1 id2 e2 hold1 hold2 ht1 ht2

theorem removeBy_eq_of_lookup_none {s : PacketHandlerMap} {id : ConnID}
    (h : mapLookup id s.handlers = none) :
    removeByConnectionIDAsString s id = s := by
  unfold removeByConnectionIDAsString
  rw [h]

theorem removeBy_eq_of_lookup_some_none {s : PacketHandlerMap} {id : ConnID}
    {entry : PacketHandlerEntry} (h : mapLookup id s.handlers = some entry)
    (ht : entry.resetToken = none) :
    removeByConnectionIDAsString s id =
      { s with handlers := mapDelete id s.handlers } := by
  unfold removeByConnectionIDAsString
  rw [h]
  dsimp only
  rw [ht]

theorem removeBy_eq_of_lookup_some_some {s : PacketHandlerMap} {id : ConnID}
    {entry : PacketHandlerEntry} {t0 : Token}
    (h : mapLookup id s.handlers = some entry)
    (ht : entry.resetToken = some t0) :
    removeByConnectionIDAsString s id =
      { s with handlers := mapDelete id s.handlers
               resetTokens := mapDelete t0 s.resetTokens } := by
  unfold removeByConnectionIDAsString
  rw [h]
  dsimp only
  rw [ht]

theorem regInv_remove {s : PacketHandlerMap} (inv : RegInv s) (id : ConnID) :
    RegInv (removeByConnectionIDAsString s id) := by
  cases hlook : mapLookup id s.handlers with
  | none =>
    rw [removeBy_eq_of_lookup_none hlook]
    exact inv
  | some entry =>
    have hmem : (id, entry) ∈ s.handlers := mem_of_mapLookup_eq_some hlook
    have huniq : ∀ e', (id, e') ∈ s.handlers → e' = entry := by
      intro e' hm'
      have := mapLookup_eq_some_of_mem inv.hNodup hm'
      rw [hlook] at this
      exact (Option.some_inj.mp this).symm
    cases hrt : entry.resetToken with
    | none =>
      rw [removeBy_eq_of_lookup_some_none hlook hrt]
      refine ⟨?_, ?_, ?_, ?_, ?_⟩
      · exact nodup_keys_mapDelete inv.hNodup
      · exact inv.tNodup
      · intro id' e' t hmem' htok
        exact inv.entriesIndexed id' e' t (mem_mapDelete.mp hmem').1 htok
      · intro t h' hmem'
        obtain ⟨id0, e0, hm0, ht0, hh0⟩ := inv.tokensBacked t h' hmem'
        have hne0 : (id0, e0).1 ≠ id := by
          intro hc
          have he : e0 = entry := huniq e0 (hc ▸ hm0)
          rw [he, hrt] at ht0
          exact Option.noConfusion ht0
        exact ⟨id0, e0, mem_mapDelete.mpr ⟨hm0, hne0⟩, ht0, hh0⟩
      · intro t id1 e1 id2 e2 hm1 hm2 ht1 ht2
        exact inv.tokenUnique t id1 e1 id2 e2 (mem_mapDelete.mp hm1).1
          (mem_mapDelete.mp hm2).1 ht1 ht2
    | some t0 =>
      have hTokNe : ∀ id' e', (id', e') ∈ s.handlers → id' ≠ id →
          e'.resetToken ≠ some t0 := by
        intro id' e' hm' hne hc
        exact hne (inv.tokenUnique t0 id' e' id entry hm' hmem hc hrt).1
      rw [removeBy_eq_of_lookup_some_some hlook hrt]
      refine ⟨?_, ?_, ?_, ?_, ?_⟩
      · exact nodup_keys_mapDelete inv.hNodup
      · exact nodup_keys_mapDelete inv.tNodup
      · intro id' e' t hmem' htok
        obtain ⟨hold, hne⟩ := mem_mapDelete.mp hmem'
        have hidx := inv.entriesIndexed id' e' t hold htok
        have hne0 : t ≠ t0 := by
          intro hc
          exact hTokNe id' e' hold hne (hc ▸ htok)
        show mapLookup t (mapDelete t0 s.resetTokens) = some e'.handler
        rw [mapLookup_mapDelete_ne hne0]
        exact hidx
      · intro t h' hmem'
        obtain ⟨hold, hne⟩ := mem_mapDelete.mp hmem'
        obtain ⟨id0, e0, hm0, ht0, hh0⟩ := inv.tokensBacked t h' hold
        have hne0 : (id0, e0).1 ≠ id := by
          intro hc
          have he : e0 = entry := huniq e0 (hc ▸ hm0)
          rw [he, hrt] at ht0
          exact hne (Option.some_inj.mp ht0).symm
        exact ⟨id0, e0, mem_mapDelete.mpr ⟨hm0, hne0⟩, ht0, hh0⟩
      · intro t id1 e1 id2 e2 hm1 hm2 ht1 ht2
        exact inv.tokenUnique t id1 e1 id2 e2 (mem_mapDelete.mp hm1).1
          (mem_mapDelete.mp hm2).1 ht1 ht2

theorem freshReach_regInv {s : PacketHandlerMap} (h : FreshReach s) :
    RegInv s := by
  induction h with
  | init connIDLen => exact regInv_init connIDLen
  | add s id hd _ hfresh ih => exact regInv_add ih id hd hfresh
  | addTok s id hd tok _ hfresh htfresh ih =>
    exact regInv_addTok ih id hd tok hfresh htfresh
  | remove s id ih ih2 => exact regInv_remove ih2 id
  | retireFired s id ih ih2 => exact regInv_remove ih2 id

theorem dispatchParsed_cases (target : DeliveryTarget) (sentBy : Perspective)
    (version : Nat) (iHdr : InvariantHeader) (rest : List Nat)
    (parseFull : ParseFullFn) :
    (∃ p, dispatchParsed target sentBy version iHdr rest parseFull
        = .delivered target p)
    ∨ (∃ e, dispatchParsed target sentBy version iHdr rest parseFull
        = .dropped e) := by
  cases hp : parseFull iHdr rest sentBy version with
  | none => exact Or.inr ⟨QErr.headerParse, by simp [dispatchParsed, hp]⟩
  | some pr =>
    obtain ⟨hdr, packetData⟩ := pr
    by_cases hL : hdr.isLongHeader
    · by_cases h1 : hdr.length < hdr.packetNumberLen
      · exact Or.inr ⟨QErr.lengthShorterThanPacketNumber,
          by simp [dispatchParsed, hp, hL, h1]⟩
      · by_cases h2 : packetData.length + hdr.packetNumberLen < hdr.length
        · exact Or.inr ⟨QErr.lengthMismatch,
            by simp [dispatchParsed, hp, hL, h1, h2]⟩
        · exact Or.inl ⟨packetData.take (hdr.length - hdr.packetNumberLen),
            by simp [dispatchParsed, hp, hL, h1, h2]⟩
    · exact Or.inl ⟨packetData, by simp [dispatchParsed, hp, hL]⟩

theorem dispatchParsed_delivered_target {target t : DeliveryTarget}
    {sentBy : Perspective} {version : Nat} {iHdr : InvariantHeader}
    {rest p : List Nat} {parseFull : ParseFullFn}
    (h : dispatchParsed target sentBy version iHdr rest parseFull
      = .delivered t p) : t = target := by
  rcases dispatchParsed_cases target sentBy version iHdr rest parseFull with
    ⟨p', hd⟩ | ⟨e, hd⟩
  · have heq := hd.symm.trans h
    injection heq with h1 h2
    exact h1.symm
  · exact HandleResult.noConfusion (hd.symm.trans h)

theorem dispatchParsed_ne_reset {target : DeliveryTarget}
    {sentBy : Perspective} {version : Nat} {iHdr : InvariantHeader}
    {rest : List Nat} {parseFull : ParseFullFn} {sess : PacketHandler}
    {r : QErr} :
    dispatchParsed target sentBy version iHdr rest parseFull ≠ .reset sess r := by
  intro h
  rcases dispatchParsed_cases target sentBy version iHdr rest parseFull with
    ⟨p', hd⟩ | ⟨e, hd⟩
  · exact HandleResult.noConfusion (hd.symm.trans h)
  · exact HandleResult.noConfusion (hd.symm.trans h)

theorem handlePacket_found {h : PacketHandlerMap} {pi : ParseInvariantFn}
    {pf : ParseFullFn} {data : List Nat} {iHdr : InvariantHeader}
    {rest : List Nat} {entry : PacketHandlerEntry}
    (hp : pi data h.connIDLen = some (iHdr, rest))
    (hl : mapLookup iHdr.destConnectionID h.handlers = some entry) :
    handlePacket h pi pf data =
      dispatchParsed (.session entry.handler)
        entry.handler.perspective.opposite entry.handler.version
        iHdr rest pf := by
  unfold handlePacket
  rw [hp]
  dsimp only
  rw [hl]

theorem handlePacket_long_noServer {h : PacketHandlerMap}
    {pi : ParseInvariantFn} {pf : ParseFullFn} {data : List Nat}
    {iHdr : InvariantHeader} {rest : List Nat}
    (hp : pi data h.connIDLen = some (iHdr, rest))
    (hlong : iHdr.isLongHeader = true)
    (hmiss : mapLookup iHdr.destConnectionID h.handlers = none)
    (hsrv : h.server = none) :
    handlePacket h pi pf data = .dropped .unknownConnLong := by
  unfold handlePacket
  rw [hp]
  dsimp only
  rw [hmiss]
  dsimp only
  simp [hlong, hsrv]

/-- C1: for every connection ID `id` registered via `Add` and still present
in the registry, `handlePacket` on a datagram whose parsed destination
connection ID equals `id` dispatches on that entry: any delivery goes to
exactly that handler (never to another handler or the server slot), the
packet is never treated as a stateless reset, and the outcome is either a
delivery to that handler or a dropped parse/length error. -/
theorem handlePacket_routes_to_registered_handler (h : PacketHandlerMap)
    (pi : ParseInvariantFn) (pf : ParseFullFn) (data rest : List Nat)
    (iHdr : InvariantHeader) (id : ConnID) (entry : PacketHandlerEntry)
    (hp : pi data h.connIDLen = some (iHdr, rest))
    (hid : iHdr.destConnectionID = id)
    (hl : mapLookup id h.handlers = some entry) :
    ((∃ p, handlePacket h pi pf data
        = .delivered (.session entry.handler) p)
      ∨ (∃ e, handlePacket h pi pf data = .dropped e))
    ∧ (∀ t p, handlePacket h pi pf data = .delivered t p →
        t = .session entry.handler)
    ∧ (∀ sess r, handlePacket h pi pf data ≠ .reset sess r) := by
  subst hid
  have heq : handlePacket h pi pf data =
      dispatchParsed (.session entry.handler)
        entry.handler.perspective.opposite entry.handler.version
        iHdr rest pf := handlePacket_found hp hl
  refine ⟨?_, ?_, ?_⟩
  · rcases dispatchParsed_cases (.session entry.handler)
        entry.handler.perspective.opposite entry.handler.version iHdr rest pf
      with ⟨p, hd⟩ | ⟨e, hd⟩
    · exact Or.inl ⟨p, heq.trans hd⟩
    · exact Or.inr ⟨e, heq.trans hd⟩
  · intro t p hdel
    rw [heq] at hdel
    exact dispatchParsed_delivered_target hdel
  · intro sess r hres
    rw [heq] at hres
    exact dispatchParsed_ne_reset hres

/-- Witness for C1 at a concrete registry, datagram and parse oracles. -/
theorem handlePacket_routes_to_registered_handler_witness :
    ((∃ p, handlePacket oneClientState (piLong [1] [8, 9]) (pfFix ⟨true, 2, 1⟩)
        [0, 0, 0] = .delivered (.session hClient1) p)
      ∨ (∃ e, handlePacket oneClientState (piLong [1] [8, 9])
          (pfFix ⟨true, 2, 1⟩) [0, 0, 0] = .dropped e))
    ∧ (∀ t p, handlePacket oneClientState (piLong [1] [8, 9])
        (pfFix ⟨true, 2, 1⟩) [0, 0, 0] = .delivered t p →
        t = .session hClient1)
    ∧ (∀ sess r, handlePacket oneClientState (piLong [1] [8, 9])
        (pfFix ⟨true, 2, 1⟩) [0, 0, 0] ≠ .reset sess r) := by
  have h := handlePacket_routes_to_registered_handler oneClientState
    (piLong [1] [8, 9]) (pfFix ⟨true, 2, 1⟩) [0, 0, 0] [8, 9]
    ⟨true, [1], 43⟩ [1] ⟨hClient1, none⟩ rfl rfl rfl
  exact h

/-- C4: with a token `tok` registered (so present in the reset-token index,
mapped to handler `sess`), `handlePacket` on a short-header datagram whose
destination connection ID misses the handlers map, whose length reaches the
minimum stateless-reset size and whose trailing 16 bytes equal `tok`,
destroys `sess` exactly once with the stateless-reset reason and returns
`nil`; the second-stage parse oracle `pf` is universally quantified, so the
outcome involves no further header parsing and no normal delivery. -/
theorem handlePacket_stateless_reset (h : PacketHandlerMap)
    (pi : ParseInvariantFn) (pf : ParseFullFn) (data rest : List Nat)
    (iHdr : InvariantHeader) (tok : Token) (sess : PacketHandler)
    (hp : pi data h.connIDLen = some (iHdr, rest))
    (hshort : iHdr.isLongHeader = false)
    (hmiss : mapLookup iHdr.destConnectionID h.handlers = none)
    (hlen : MinStatelessResetSize ≤ data.length)
    (htail : lastN 16 data = tok)
    (htok : mapLookup tok h.resetTokens = some sess) :
    handlePacket h pi pf data = .reset sess .statelessResetReceived
    ∧ (handlePacket h pi pf data).returnsError = false := by
  have h1 : handlePacket h pi pf data = .reset sess .statelessResetReceived := by
    unfold handlePacket
    rw [hp]
    dsimp only
    rw [hmiss]
    dsimp only
    rw [hshort]
    show (if MinStatelessResetSize ≤ data.length then
        match mapLookup (lastN 16 data) h.resetTokens with
        | some sess => HandleResult.reset sess QErr.statelessResetReceived
        | none => HandleResult.dropped QErr.unknownConnShort
      else HandleResult.dropped QErr.unknownConnShort)
      = HandleResult.reset sess QErr.statelessResetReceived
    rw [if_pos hlen, htail, htok]
  exact ⟨h1, by rw [h1]; rfl⟩

/-- Witness for C4: 42-byte datagram ending in the registered token. -/
theorem handlePacket_stateless_reset_witness :
    handlePacket oneTokenState (piShort [2] []) (pfFix ⟨false, 0, 0⟩)
      (List.replicate 42 7) = .reset hClient1 .statelessResetReceived
    ∧ (handlePacket oneTokenState (piShort [2] []) (pfFix ⟨false, 0, 0⟩)
        (List.replicate 42 7)).returnsError = false := by
  have h := handlePacket_stateless_reset oneTokenState (piShort [2] [])
    (pfFix ⟨false, 0, 0⟩) (List.replicate 42 7) [] ⟨false, [2], 43⟩ tok16
    hClient1 rfl rfl rfl (by decide) (by decide) rfl
  exact h

/-- C10: `handlePacket` on a short-header datagram whose destination misses
the handlers map and whose length is below the minimum stateless-reset size
returns the unknown-connection-ID error without consulting the reset-token
index (the registry `h`, hence its `resetTokens` field, is arbitrary),
without destroying any handler and without delivering to anyone. -/
theorem handlePacket_short_below_reset_size (h : PacketHandlerMap)
    (pi : ParseInvariantFn) (pf : ParseFullFn) (data rest : List Nat)
    (iHdr : InvariantHeader)
    (hp : pi data h.connIDLen = some (iHdr, rest))
    (hshort : iHdr.isLongHeader = false)
    (hmiss : mapLookup iHdr.destConnectionID h.handlers = none)
    (hlen : data.length < MinStatelessResetSize) :
    handlePacket h pi pf data = .dropped .unknownConnShort := by
  unfold handlePacket
  rw [hp]
  dsimp only
  rw [hmiss]
  dsimp only
  rw [hshort]
  show (if MinStatelessResetSize ≤ data.length then
      match mapLookup (lastN 16 data) h.resetTokens with
      | some sess => HandleResult.reset sess QErr.statelessResetReceived
      | none => HandleResult.dropped QErr.unknownConnShort
    else HandleResult.dropped QErr.unknownConnShort)
    = HandleResult.dropped QErr.unknownConnShort
  rw [if_neg (Nat.not_le.mpr hlen)]

/-- Witness for C10: a 20-byte datagram whose trailing 16 bytes do equal the
registered token, still dropped as unknown because it is too short. -/
theorem handlePacket_short_below_reset_size_witness :
    handlePacket oneTokenState (piShort [2] []) (pfFix ⟨false, 0, 0⟩)
      (List.replicate 20 7) = .dropped .unknownConnShort := by
  have h := handlePacket_short_below_reset_size oneTokenState
    (piShort [2] []) (pfFix ⟨false, 0, 0⟩) (List.replicate 20 7) []
    ⟨false, [2], 43⟩ rfl rfl rfl (by decide)
  exact h

/-- Counterexample to C5 as stated: a long-header packet with declared
length `L = 5`, packet-number length `pnLen = 4` and `R = 2` remaining
captured bytes has `R < L`, yet `handlePacket` does not return a
length-mismatch error — it delivers a 1-byte payload, because the code's
check is `R + pnLen < L`, not `R < L`. -/
theorem long_header_length_check_counterexample :
    (2 : Nat) < 5
    ∧ handlePacket oneClientState (piLong [1] [8, 9]) (pfFix ⟨true, 5, 4⟩)
        [0] = .delivered (.session hClient1) [8] := by
  exact ⟨by decide, by decide⟩

/-- C5 (amended): for a long-header packet that passes full header parsing
with declared length `L`, packet-number length `pnLen ≤ L`, and `R`
remaining captured bytes: if `L ≤ R + pnLen` the handler receives a payload
of exactly `L − pnLen` bytes, and if `R + pnLen < L` `handlePacket` returns
a length-mismatch error and delivers nothing. -/
theorem long_header_length_check (h : PacketHandlerMap)
    (pi : ParseInvariantFn) (pf : ParseFullFn) (data rest pd : List Nat)
    (iHdr : InvariantHeader) (entry : PacketHandlerEntry) (hdr : FullHeader)
    (hp : pi data h.connIDLen = some (iHdr, rest))
    (hl : mapLookup iHdr.destConnectionID h.handlers = some entry)
    (hf : pf iHdr rest entry.handler.perspective.opposite
      entry.handler.version = some (hdr, pd))
    (hlong : hdr.isLongHeader = true)
    (hpn : hdr.packetNumberLen ≤ hdr.length) :
    (hdr.length ≤ pd.length + hdr.packetNumberLen →
      handlePacket h pi pf data =
        .delivered (.session entry.handler)
          (pd.take (hdr.length - hdr.packetNumberLen))
      ∧ (pd.take (hdr.length - hdr.packetNumberLen)).length
          = hdr.length - hdr.packetNumberLen)
    ∧ (pd.length + hdr.packetNumberLen < hdr.length →
      handlePacket h pi pf data = .dropped .lengthMismatch) := by
  have heq : handlePacket h pi pf data =
      dispatchParsed (.session entry.handler)
        entry.handler.perspective.opposite entry.handler.version
        iHdr rest pf := handlePacket_found hp hl
  constructor
  · intro hge
    have hnotlt : ¬ pd.length + hdr.packetNumberLen < hdr.length :=
      Nat.not_lt.mpr hge
    constructor
    · rw [heq]
      unfold dispatchParsed
      rw [hf]
      dsimp only
      rw [hlong]
      rw [if_pos rfl, if_neg (Nat.not_lt.mpr hpn), if_neg hnotlt]
    · rw [List.length_take]
      have : hdr.length - hdr.packetNumberLen ≤ pd.length :=
        Nat.sub_le_of_le_add (Nat.le_trans hge (Nat.le_of_eq rfl))
      exact Nat.min_eq_left this
  · intro hlt
    rw [heq]
    unfold dispatchParsed
    rw [hf]
    dsimp only
    rw [hlong]
    rw [if_pos rfl, if_neg (Nat.not_lt.mpr hpn), if_pos hlt]

/-- Witness for the amended C5: both branches at concrete inputs
(`L = 3`, `pnLen = 1`: delivery of 2 bytes when `R = 2`; mismatch when the
declared length is 9). -/
theorem long_header_length_check_witness :
    ((3 : Nat) ≤ 2 + 1 →
      handlePacket oneClientState (piLong [1] [8, 9]) (pfFix ⟨true, 3, 1⟩)
        [0] = .delivered (.session hClient1) ([8, 9].take 2)
      ∧ ([8, 9].take (3 - 1) : List Nat).length = 3 - 1)
    ∧ ((2 : Nat) + 1 < 3 →
      handlePacket oneClientState (piLong [1] [8, 9]) (pfFix ⟨true, 3, 1⟩)
        [0] = .dropped .lengthMismatch) := by
  have h := long_header_length_check oneClientState (piLong [1] [8, 9])
    (pfFix ⟨true, 3, 1⟩) [0] [8, 9] [8, 9] ⟨true, [1], 43⟩
    ⟨hClient1, none⟩ ⟨true, 3, 1⟩ rfl rfl rfl rfl (by decide)
  exact h

theorem close_eq_of_open {s : PacketHandlerMap} {e : QErr}
    (hopen : s.closed = false) :
    close s e = ⟨{ s with closed := true },
      s.handlers.map (fun p => (p.2.handler, e)),
      s.server.map (fun _ => e)⟩ := by
  have hne : ¬ (s.closed = true) := by
    rw [hopen]
    exact Bool.false_ne_true
  unfold close
  rw [if_neg hne]

theorem close_eq_of_closed {s : PacketHandlerMap} {e : QErr}
    (hclosed : s.closed = true) : close s e = ⟨s, [], none⟩ := by
  unfold close
  rw [if_pos hclosed]

/-- C3: `close(e)` is idempotent — the first call (on an open registry)
marks it closed, issues `destroy(e)` once per occurrence of each handler in
the handlers map (count equality), and closes the server with `e` exactly
when one is set; a second `close` returns at once with the state unchanged,
no handler destroyed and no server close. -/
theorem close_idempotent (s : PacketHandlerMap) (e e2 : QErr)
    (hopen : s.closed = false) :
    (close s e).state.closed = true
    ∧ (∀ hd, occurrences (hd, e) (close s e).destroyed
        = occurrences hd (s.handlers.map (fun p => p.2.handler)))
    ∧ (close s e).serverClosedWith = s.server.map (fun _ => e)
    ∧ close (close s e).state e2 = ⟨(close s e).state, [], none⟩ := by
  have hcl := close_eq_of_open (e := e) hopen
  have hstate : (close s e).state.closed = true := by rw [hcl]
  refine ⟨hstate, ?_, ?_, ?_⟩
  · intro hd
    rw [hcl]
    show occurrences (hd, e) (s.handlers.map (fun p => (p.2.handler, e))) = _
    have hmm : s.handlers.map (fun p => (p.2.handler, e))
        = (s.handlers.map (fun p => p.2.handler)).map (fun x => (x, e)) := by
      rw [List.map_map]
      rfl
    rw [hmm]
    exact occurrences_map_inj (f := fun x => (x, e))
      (fun a b hab => (congrArg Prod.fst hab : a = b)) hd
      (s.handlers.map (fun p => p.2.handler))
  · rw [hcl]
  · exact close_eq_of_closed hstate

/-- Witness for C3 at a concrete open registry with handlers and a
server. -/
theorem close_idempotent_witness :
    (close mixedState (QErr.external 1)).state.closed = true
    ∧ (∀ hd, occurrences (hd, QErr.external 1)
          (close mixedState (QErr.external 1)).destroyed
        = occurrences hd (mixedState.handlers.map (fun p => p.2.handler)))
    ∧ (close mixedState (QErr.external 1)).serverClosedWith
        = mixedState.server.map (fun _ => QErr.external 1)
    ∧ close (close mixedState (QErr.external 1)).state (QErr.external 2)
        = ⟨(close mixedState (QErr.external 1)).state, [], none⟩ := by
  have h := close_idempotent mixedState (QErr.external 1) (QErr.external 2)
    rfl
  exact h

/-- Counterexample to C6 as stated: after `close` has marked the registry
closed, `Add` still inserts a fresh entry into the handlers map and
`AddWithResetToken` still inserts into the reset-token index — the code has
no closed-guard on either. -/
theorem closed_registry_add_counterexample :
    closedEmpty.closed = true
    ∧ mapLookup [1] (Add closedEmpty [1] hClient1).handlers
        = some ⟨hClient1, none⟩
    ∧ mapLookup tok16
        (AddWithResetToken closedEmpty [1] hClient1 tok16).resetTokens
        = some hClient1 := by
  exact ⟨by decide, by decide, by decide⟩

/-- C6 (amended): `close(e)` on an open registry marks it closed and issues
a destroy for every handler registered at close time (the destroyed list is
exactly the handlers column of the map); however, the closed flag does not
prevent later `Add`/`AddWithResetToken` calls from inserting new entries
into the handlers map and the token index. -/
theorem close_destroys_all_registered (s : PacketHandlerMap) (e : QErr)
    (hopen : s.closed = false) (id : ConnID) (hd : PacketHandler)
    (tok : Token) :
    (close s e).state.closed = true
    ∧ (close s e).destroyed.map Prod.fst
        = s.handlers.map (fun p => p.2.handler)
    ∧ mapLookup id (Add (close s e).state id hd).handlers = some ⟨hd, none⟩
    ∧ mapLookup tok
        (AddWithResetToken (close s e).state id hd tok).resetTokens
        = some hd := by
  have hcl := close_eq_of_open (e := e) hopen
  refine ⟨by rw [hcl], ?_, ?_, ?_⟩
  · rw [hcl]
    show (s.handlers.map (fun p => (p.2.handler, e))).map Prod.fst = _
    rw [List.map_map]
    rfl
  · exact mapLookup_mapInsert_self
  · exact mapLookup_mapInsert_self

/-- Witness for the amended C6 at a concrete open registry. -/
theorem close_destroys_all_registered_witness :
    (close mixedState (QErr.external 1)).state.closed = true
    ∧ (close mixedState (QErr.external 1)).destroyed.map Prod.fst
        = mixedState.handlers.map (fun p => p.2.handler)
    ∧ mapLookup [7] (Add (close mixedState (QErr.external 1)).state [7]
        hClient2).handlers = some ⟨hClient2, none⟩
    ∧ mapLookup tok16 (AddWithResetToken
        (close mixedState (QErr.external 1)).state [7] hClient2
        tok16).resetTokens = some hClient2 := by
  have h := close_destroys_all_registered mixedState (QErr.external 1) rfl
    [7] hClient2 tok16
  exact h

theorem occurrences_eq_zero_of_not_mem {α : Type} [DecidableEq α] {a : α}
    {l : List α} (h : a ∉ l) : occurrences a l = 0 := by
  induction l with
  | nil => rfl
  | cons x xs ih =>
    have hx : ¬ x = a := by
      intro hc
      apply h
      rw [← hc]
      exact List.mem_cons_self x xs
    rw [occurrences_cons, if_neg hx, Nat.zero_add]
    exact ih (fun hm => h (List.mem_cons_of_mem _ hm))

theorem occurrences_filtered_pairs_zero
    {l : List (ConnID × PacketHandlerEntry)} {id : ConnID}
    (h : id ∉ l.map Prod.fst) (x : PacketHandler) :
    occurrences (id, x)
      ((l.filter (fun p => p.2.handler.perspective = Perspective.server)).map
        (fun p => (p.1, p.2.handler))) = 0 := by
  apply occurrences_eq_zero_of_not_mem
  intro hmem
  rcases List.mem_map.mp hmem with ⟨q, hq, hqe⟩
  exact h (List.mem_map.mpr
    ⟨q, (List.mem_filter.mp hq).1, (congrArg Prod.fst hqe : q.1 = id)⟩)

theorem occurrences_filtered_pairs {l : List (ConnID × PacketHandlerEntry)}
    (hnd : (l.map Prod.fst).Nodup) {id : ConnID} {e : PacketHandlerEntry}
    (hmem : (id, e) ∈ l)
    (hs : e.handler.perspective = Perspective.server) :
    occurrences (id, e.handler)
      ((l.filter (fun p => p.2.handler.perspective = Perspective.server)).map
        (fun p => (p.1, p.2.handler))) = 1 := by
  induction l with
  | nil => simp at hmem
  | cons q rest ih =>
    obtain ⟨k, v⟩ := q
    simp only [List.map_cons, List.nodup_cons] at hnd
    rcases List.mem_cons.mp hmem with hv | hv
    · have hk : k = id := (congrArg Prod.fst hv).symm
      have hvv : v = e := (congrArg Prod.snd hv).symm
      subst hk
      subst hvv
      rw [List.filter_cons, if_pos (decide_eq_true hs), List.map_cons,
        occurrences_cons, if_pos rfl,
        occurrences_filtered_pairs_zero hnd.1 v.handler]
    · have hk : ¬ k = id := by
        intro hc
        apply hnd.1
        rw [hc]
        exact List.mem_map.mpr ⟨(id, e), hv, rfl⟩
      rw [List.filter_cons]
      by_cases hp : v.handler.perspective = Perspective.server
      · rw [if_pos (decide_eq_true hp), List.map_cons, occurrences_cons,
          if_neg (fun hc => hk (congrArg Prod.fst hc)), Nat.zero_add]
        exact ih hnd.2 hv
      · rw [if_neg (fun hc => hp (of_decide_eq_true hc))]
        exact ih hnd.2 hv

/-- C7: `CloseServer` clears the server slot (and leaves the handlers map
itself untouched — removals are only scheduled via retirement); it invokes
`Close` followed by retirement exactly once on every entry whose handler has
server perspective; every handler in the closed-and-retired effect list has
server perspective (so client-perspective handlers receive neither `Close`
nor `destroy`); and after it, a long-header packet with an unknown
destination connection ID is dropped with the routing-miss error instead of
reaching a server. -/
theorem closeServer_behavior (s : PacketHandlerMap)
    (hnd : (s.handlers.map Prod.fst).Nodup) :
    (CloseServer s).state.server = none
    ∧ (CloseServer s).state.handlers = s.handlers
    ∧ (∀ id e, (id, e) ∈ s.handlers →
        e.handler.perspective = Perspective.server →
        occurrences (id, e.handler) (CloseServer s).closedAndRetired = 1)
    ∧ (∀ p ∈ (CloseServer s).closedAndRetired,
        p.2.perspective = Perspective.server)
    ∧ (∀ pi pf data iHdr rest,
        pi data s.connIDLen = some (iHdr, rest) →
        iHdr.isLongHeader = true →
        mapLookup iHdr.destConnectionID s.handlers = none →
        handlePacket (CloseServer s).state pi pf data
          = .dropped .unknownConnLong) := by
  refine ⟨rfl, rfl, ?_, ?_, ?_⟩
  · intro id e hm hs
    exact occurrences_filtered_pairs hnd hm hs
  · intro p hp
    rcases List.mem_map.mp hp with ⟨q, hq, hqe⟩
    have hqs : q.2.handler.perspective = Perspective.server :=
      of_decide_eq_true (List.mem_filter.mp hq).2
    have h2 : p.2 = q.2.handler := (congrArg Prod.snd hqe).symm
    rw [h2]
    exact hqs
  · intro pi pf data iHdr rest hp hlong hmiss
    exact handlePacket_long_noServer hp hlong hmiss rfl

/-- Witness for C7 at a concrete registry with a server-perspective and a
client-perspective handler and an installed server. -/
theorem closeServer_behavior_witness :
    (CloseServer mixedState).state.server = none
    ∧ (CloseServer mixedState).state.handlers = mixedState.handlers
    ∧ (∀ id e, (id, e) ∈ mixedState.handlers →
        e.handler.perspective = Perspective.server →
        occurrences (id, e.handler)
          (CloseServer mixedState).closedAndRetired = 1)
    ∧ (∀ p ∈ (CloseServer mixedState).closedAndRetired,
        p.2.perspective = Perspective.server)
    ∧ (∀ pi pf data iHdr rest,
        pi data mixedState.connIDLen = some (iHdr, rest) →
        iHdr.isLongHeader = true →
        mapLookup iHdr.destConnectionID mixedState.handlers = none →
        handlePacket (CloseServer mixedState).state pi pf data
          = .dropped .unknownConnLong) := by
  have h := closeServer_behavior mixedState (by decide)
  exact h

/-- C8: in the receive loop, only a socket read error terminates the loop —
a trace of successful reads followed by a read failure dispatches every
preceding datagram through `handlePacket`, then calls `close` with exactly
the read error and stops (later events are never reached); a trace of only
successful reads dispatches every datagram (per-packet `handlePacket`
errors are logged, the loop continues, `close` is never invoked and the
registry state is untouched). -/
theorem listen_error_policy (h : PacketHandlerMap) (pi : ParseInvariantFn)
    (pf : ParseFullFn) (datagrams : List (List Nat)) (e : QErr)
    (rest : List ReadEvent) :
    listen h pi pf (datagrams.map ReadEvent.ok ++ ReadEvent.fail e :: rest)
      = ⟨(close h e).state, datagrams.map (handlePacket h pi pf), some e⟩
    ∧ listen h pi pf (datagrams.map ReadEvent.ok)
      = ⟨h, datagrams.map (handlePacket h pi pf), none⟩ := by
  induction datagrams with
  | nil => exact ⟨rfl, rfl⟩
  | cons d ds ih =>
    constructor
    · show ListenTrace.mk
        (listen h pi pf
          (ds.map ReadEvent.ok ++ ReadEvent.fail e :: rest)).finalState
        (handlePacket h pi pf d :: (listen h pi pf
          (ds.map ReadEvent.ok ++ ReadEvent.fail e :: rest)).dispatched)
        (listen h pi pf
          (ds.map ReadEvent.ok ++ ReadEvent.fail e :: rest)).closedWith
        = _
      rw [ih.1]
      rfl
    · show ListenTrace.mk
        (listen h pi pf (ds.map ReadEvent.ok)).finalState
        (handlePacket h pi pf d ::
          (listen h pi pf (ds.map ReadEvent.ok)).dispatched)
        (listen h pi pf (ds.map ReadEvent.ok)).closedWith
        = _
      rw [ih.2]
      rfl

/-- C9: for every registry state and every connection ID — registered or
not — `Retire(id)` leaves the registry (both maps included) completely
unchanged and schedules exactly one removal of `id`, to fire after the
fixed grace delay `deleteRetiredSessionsAfter`; and when the scheduled
removal eventually fires against an `id` that is absent from the handlers
map (already removed, or the registry cleared), it is a safe no-op leaving
the whole state, in particular both maps, unchanged. -/
theorem retire_schedules_one_removal (s : PacketHandlerMap) (id : ConnID) :
    (Retire s id).state = s
    ∧ (Retire s id).scheduledRemovals = [(id, s.deleteRetiredSessionsAfter)]
    ∧ (mapLookup id s.handlers = none →
        removeByConnectionIDAsString s id = s) := by
  exact ⟨rfl, rfl, fun habs => removeBy_eq_of_lookup_none habs⟩

/-- Witness for C9: retiring the registered id `[1]` removes nothing
immediately and schedules one removal; for the absent id `[9]` the inner
hypothesis of the fired-removal conjunct is discharged concretely and the
firing is a no-op. -/
theorem retire_schedules_one_removal_witness :
    ((Retire oneClientState [1]).state = oneClientState
      ∧ (Retire oneClientState [1]).scheduledRemovals
        = [([1], oneClientState.deleteRetiredSessionsAfter)])
    ∧ mapLookup [9] oneClientState.handlers = none
    ∧ (Retire oneClientState [9]).state = oneClientState
    ∧ (Retire oneClientState [9]).scheduledRemovals
      = [([9], oneClientState.deleteRetiredSessionsAfter)]
    ∧ removeByConnectionIDAsString oneClientState [9] = oneClientState := by
  have h1 := retire_schedules_one_removal oneClientState [1]
  have h9 := retire_schedules_one_removal oneClientState [9]
  exact ⟨⟨h1.1, h1.2.1⟩, by decide, h9.1, h9.2.1, h9.2.2 (by decide)⟩

/-- Counterexample to C2 as stated: the state reached from the empty
registry by `AddWithResetToken([1], h1, tok)` followed by an overwriting
`Add([1], h2)` still indexes `tok`, but no handlers-map entry carries it —
the overwrite does not clean the token index, so the token dangles. -/
theorem token_index_counterexample : ¬ uniqueTokenOwner overwriteState := by
  intro h
  have hmem : (tok16, hClient1) ∈ overwriteState.resetTokens := by decide
  obtain ⟨id, e, ⟨hm, ht, _⟩, _⟩ := h tok16 hClient1 hmem
  have hl : overwriteState.handlers = [([1], ⟨hClient2, none⟩)] := by decide
  rw [hl] at hm
  have he : (id, e) = ([1], (⟨hClient2, none⟩ : PacketHandlerEntry)) :=
    List.mem_singleton.mp hm
  have he2 : e = ⟨hClient2, none⟩ := congrArg Prod.snd he
  rw [he2] at ht
  exact Option.noConfusion ht

/-- C2 (amended): over mutation sequences from the empty registry in which
`Add`/`AddWithResetToken` never overwrite a currently registered connection
ID and `AddWithResetToken` never reuses a currently indexed token
(`FreshReach`), every token in the reset-token index corresponds to exactly
one handlers-map entry whose token field equals it; and `Remove(id)` on an
entry carrying token `t` deletes `t` from the index in the same critical
section, so the token no longer resolves afterwards. The freshness
restriction is what the counterexample forces: an overwriting `Add` leaves
the overwritten entry's token dangling. -/
theorem token_index_exactly_one_owner (s : PacketHandlerMap)
    (h : FreshReach s) :
    uniqueTokenOwner s
    ∧ ∀ id entry t, mapLookup id s.handlers = some entry →
        entry.resetToken = some t →
        mapLookup t (Remove s id).resetTokens = none := by
  have inv := freshReach_regInv h
  constructor
  · intro tok hd hmem
    obtain ⟨id, e, hm, ht, hh⟩ := inv.tokensBacked tok hd hmem
    exact ⟨id, e, ⟨hm, ht, hh⟩,
      fun id2 e2 hm2 ht2 => inv.tokenUnique tok id2 e2 id e hm2 hm ht2 ht⟩
  · intro id entry t hlook ht
    show mapLookup t (removeByConnectionIDAsString s id).resetTokens = none
    rw [removeBy_eq_of_lookup_some_some hlook ht]
    exact mapLookup_mapDelete_self

/-- Witness for the amended C2 at a concretely reached registry. -/
theorem token_index_exactly_one_owner_witness :
    uniqueTokenOwner oneTokenState
    ∧ ∀ id entry t, mapLookup id oneTokenState.handlers = some entry →
        entry.resetToken = some t →
        mapLookup t (Remove oneTokenState id).resetTokens = none := by
  have h := token_index_exactly_one_owner oneTokenState
    (FreshReach.addTok (newPacketHandlerMap 4) [1] hClient1 tok16
      (FreshReach.init 4) rfl rfl)
  exact h

end Quic
